import Mathlib

/-!
Verification of the declaration-indexing engine of `mcp-tailwindcss`.

The repository ships the tool layer (`src/tools/ast-tools.ts`,
`src/tools/repo-tools.ts`, `src/formatters.ts`, `src/constants.ts`,
`src/index.ts`) but not the engine file `src/ast-parser.ts` it imports;
the engine (`AstParser` and its query methods) is therefore modelled
from the specification, while the tool handlers, the category tables and
the formatters are translated from the shipped source.
-/

/-- The eight declaration kinds.  Translated from `ExtractedKind` as
enumerated by `CATEGORY_EMOJI` / `CATEGORY_LABELS` in `src/constants.ts`
(`interface`, `type`, `enum`, `function`, `class`, `variable`,
`namespace`, `re-export`); `class`, `variable` and `namespace` are Lean
keywords and are abbreviated `cls`, `var`, `nsp`. -/
inductive ExtractedKind where
  | interface
  | type
  | enum
  | function
  | cls
  | var
  | nsp
  | reExport
deriving DecidableEq, Repr

/-- Modelled from the spec: `PropertyInfo` of §3 (its field names also
appear in the shipped `formatProperty` of `src/formatters.ts`). -/
structure PropertyInfo where
  name : String
  type : String
  optional : Bool := false
  readonly : Bool := false
  isMethod : Bool := false
  isCallSignature : Bool := false
  isIndexSignature : Bool := false
  parameters : List String := []
  returnType : Option String := none
  docs : Option String := none
deriving DecidableEq, Repr

/-- Modelled from the spec: a type parameter `{name, constraint, default}`
of a `Declaration` (§3). -/
structure TypeParameterInfo where
  name : String
  constraint : Option String := none
  default : Option String := none
deriving DecidableEq, Repr

/-- Modelled from the spec: `ExtractedType` (the `Declaration` record of
§3), the unit of indexing produced by the missing `src/ast-parser.ts`.
`extends` is a Lean keyword, so that field is named `extendsList`.
For `kind = reExport` the origin-module string (§4.2) is carried in
`reExportOrigin`. -/
structure ExtractedType where
  kind : ExtractedKind
  name : String
  module : String
  file : String
  lineNumber : Nat := 1
  docs : Option String := none
  signature : String := ""
  typeParameters : List TypeParameterInfo := []
  extendsList : List String := []
  implementsList : List String := []
  properties : List PropertyInfo := []
  methods : List PropertyInfo := []
  members : List String := []
  value : Option String := none
  reExportOrigin : Option String := none
deriving DecidableEq, Repr

/-- An index is the list of all extracted declarations in insertion
(file-enumeration) order; modelled from the spec (§3, Declaration
Index). -/
abbrev DeclIndex := List ExtractedType

/-- Modelled from the spec: `searchType` / `find_by_name` (§4.3) — the
first declaration with an exact, case-sensitive name match. -/
def findByName (idx : DeclIndex) (n : String) : Option ExtractedType :=
  idx.find? (fun t => t.name == n)

/-- Hierarchy view `{type, parents, children}` (§3). -/
structure TypeHierarchy where
  type : ExtractedType
  parents : List String
  children : List String
deriving DecidableEq, Repr

/-- Whether declaration `t` names `n` in its `extends` or `implements`
lists (the reverse-scan predicate of §4.5). -/
def referencesName (t : ExtractedType) (n : String) : Bool :=
  t.extendsList.contains n || t.implementsList.contains n

/-- Modelled from the spec: `getTypeHierarchy` (§4.5).  Locate the
declaration via exact `findByName`; absent gives `none` ("not found").
`parents` is the declaration's own extends+implements union; `children`
is the name of every declaration in the index whose extends/implements
lists contain the queried name. -/
def getTypeHierarchy (idx : DeclIndex) (n : String) : Option TypeHierarchy :=
  match findByName idx n with
  | none => none
  | some d =>
    some { type := d
           parents := d.extendsList ++ d.implementsList
           children := (idx.filter (fun t => referencesName t n)).map (·.name) }

/-- The `tailwind_hierarquia` handler's error flag, translated from
`src/tools/ast-tools.ts`: the response carries `isError: true` exactly
when `getTypeHierarchy` returned nothing. -/
def hierarquiaIsError (idx : DeclIndex) (n : String) : Bool :=
  (getTypeHierarchy idx n).isNone

/-- The eight kinds in the enumeration order of `CATEGORY_EMOJI` /
`CATEGORY_LABELS` in `src/constants.ts`. -/
def allKinds : List ExtractedKind :=
  [.interface, .type, .enum, .function, .cls, .var, .nsp, .reExport]

/-- Modelled from the spec: `LibraryStatistics` (§3/§4.7) restricted to
the fields the analysed properties concern: `totalDeclarations` and the
per-kind counts `byKind` (the ranked "top" lists and the per-module
table are presentation data left unmodelled). -/
structure LibraryStatistics where
  totalDeclarations : Nat
  byKind : List (ExtractedKind × Nat)
deriving DecidableEq, Repr

/-- Modelled from the spec: `getStatistics` (§4.7) — the total is the
size of the whole index and `byKind` enumerates all eight kinds even
when a count is zero. -/
def getStatistics (idx : DeclIndex) : LibraryStatistics :=
  { totalDeclarations := idx.length
    byKind := allKinds.map (fun k => (k, (idx.filter (fun d => decide (d.kind = k))).length)) }

/-- ASCII lower-casing (JavaScript's `toLowerCase` on the identifiers and
module names at hand); written over the character list so that it
evaluates in the kernel. -/
def toLowerStr (s : String) : String := String.mk (s.data.map Char.toLower)

/-- Whether a string is blank: empty or whitespace only. -/
def isBlank (s : String) : Bool :=
  s.data.all (fun c => c == ' ' || c == '\t' || c == '\n' || c == '\r')

/-- Split a character list into its space-separated non-empty words
(the token pass of the fuzzy score). -/
def splitWords (cur : List Char) : List Char → List (List Char)
  | [] => if cur.isEmpty then [] else [cur.reverse]
  | c :: rest =>
    if c == ' ' then
      (if cur.isEmpty then splitWords [] rest else cur.reverse :: splitWords [] rest)
    else splitWords (c :: cur) rest

/-- Substring containment on character lists (used by the fuzzy score);
`pat` occurs contiguously inside `s`. -/
def containsSub (pat : List Char) : List Char → Bool
  | [] => pat.isEmpty
  | c :: rest => pat.isPrefixOf (c :: rest) || containsSub pat rest

/-- Modelled from the spec: the fuzzy relevance score (§4.4) —
case-insensitive; substring containment in the name carries the highest
weight, containment in signature or docs a lower one, plus a token
overlap count of query words occurring in the name. -/
def fuzzyScore (q : String) (t : ExtractedType) : Nat :=
  let ql := (toLowerStr q).data
  let nameL := (toLowerStr t.name).data
  (if containsSub ql nameL then 10 else 0) +
  (if containsSub ql (toLowerStr t.signature).data then 3 else 0) +
  (if containsSub ql (toLowerStr (t.docs.getD "")).data then 3 else 0) +
  ((splitWords [] ql).filter (fun w => containsSub w nameL)).length

/-- A scored search candidate: the declaration, its relevance score and
its original position in the index (the stable-sort tie-break key). -/
structure ScoredEntry where
  pos : Nat
  score : Nat
  decl : ExtractedType
deriving DecidableEq, Repr

/-- The ranking order of the fuzzy matcher: higher score first, ties
broken by original index position (§4.4). -/
def fuzzyBefore (a b : ScoredEntry) : Prop :=
  b.score < a.score ∨ (a.score = b.score ∧ a.pos ≤ b.pos)

instance : DecidableRel fuzzyBefore := fun a b => by
  unfold fuzzyBefore; infer_instance

instance : IsTotal ScoredEntry fuzzyBefore :=
  ⟨fun a b => by unfold fuzzyBefore; omega⟩

instance : IsTrans ScoredEntry fuzzyBefore :=
  ⟨fun a b c hab hbc => by unfold fuzzyBefore at *; omega⟩

/-- Modelled from the spec: the ranking pass of `fuzzySearch` (§4.4) —
score every declaration, keep the positive-score candidates, and sort
them stably by descending score with original index order as tie-break. -/
def rankEntries (idx : DeclIndex) (q : String) : List ScoredEntry :=
  List.insertionSort fuzzyBefore
    ((idx.enum.map
        (fun p => ({ pos := p.1, score := fuzzyScore q p.2, decl := p.2 } : ScoredEntry))).filter
      (fun e => decide (0 < e.score)))

/-- Modelled from the spec: `fuzzySearch(query, limit)` (§4.4) — a blank
query returns no result; otherwise the top `limit` ranked declarations. -/
def fuzzySearch (idx : DeclIndex) (q : String) (limit : Nat) : List ExtractedType :=
  if isBlank q then [] else ((rankEntries idx q).take limit).map (·.decl)

/-- The effective limit of the `tailwind_buscar_fuzzy` tool, translated
from `src/tools/ast-tools.ts` (`limite || 20`): an omitted limit — and,
JavaScript `||` being falsy-based, an explicit `0` — becomes 20. -/
def fuzzyToolLimit (limite : Option Nat) : Nat :=
  match limite with
  | none => 20
  | some n => if n = 0 then 20 else n

/-- A tool response: rendered text plus the MCP `isError` flag. -/
structure ToolResponse where
  text : String
  isError : Bool
deriving DecidableEq, Repr

/-- The `tailwind_buscar_fuzzy` handler, translated from
`src/tools/ast-tools.ts`: zero fuzzy results produce a response with
`isError: true`; otherwise a result listing with `isError` unset. -/
def buscarFuzzyHandler (idx : DeclIndex) (query : String) (limite : Option Nat) : ToolResponse :=
  let results := fuzzySearch idx query (fuzzyToolLimit limite)
  if results.length = 0 then
    { text := "❌ Nenhum resultado encontrado para \"" ++ query ++ "\""
      isError := true }
  else
    { text := "# 🔍 Resultados para \"" ++ query ++ "\""
      isError := false }

/-- Case-insensitive module filter, translated from the listing handlers
of `src/tools/ast-tools.ts`
(`t.module.toLowerCase() === modulo.toLowerCase()`). -/
def moduleFilter (types : List ExtractedType) (modulo : String) : List ExtractedType :=
  types.filter (fun t => toLowerStr t.module == toLowerStr modulo)

/-- Modelled from the spec: `by_kind` (§4.3) — every declaration of the
given kind, in index order. -/
def getTypesByKind (idx : DeclIndex) (k : ExtractedKind) : List ExtractedType :=
  idx.filter (fun t => decide (t.kind = k))

/-- Modelled from the spec: `getTypesFromModule` / `by_module` (§4.3) —
case-insensitive exact module match. -/
def getTypesFromModule (idx : DeclIndex) (modulo : String) : List ExtractedType :=
  moduleFilter idx modulo

/-- The `tailwind_categorias` handler's selection pipeline, translated
from `src/tools/ast-tools.ts`: kind listing, then the optional
case-insensitive module filter; the response is never error-marked, a
zero-result listing renders `Total: 0`. -/
def categoriasHandler (idx : DeclIndex) (categoria : ExtractedKind)
    (modulo : Option String) : List ExtractedType × ToolResponse :=
  let types := getTypesByKind idx categoria
  let types := match modulo with
    | some m => moduleFilter types m
    | none => types
  (types, { text := "**Total:** " ++ toString types.length, isError := false })

/-- Per-module dependency record (§3). -/
structure DependencyInfo where
  module : String
  exports : List String
  reExportsFrom : List String
deriving DecidableEq, Repr

/-- First-appearance de-duplication: keeps the first occurrence of each
string, in order (the observable behaviour of collecting into a
JavaScript `Set`). -/
def dedupFirst : List String → List String
  | [] => []
  | x :: xs => x :: (dedupFirst xs).filter (fun y => y != x)

/-- The origin-module strings of a module's re-export declarations, in
index order and with duplicates intact (the raw sequence the dependency
analyzer de-duplicates). -/
def moduleReExportOrigins (idx : DeclIndex) (m : String) : List String :=
  ((idx.filter (fun t => t.module == m)).filter
    (fun t => decide (t.kind = .reExport))).filterMap (·.reExportOrigin)

/-- Modelled from the spec: `analyzeDependencies` (§4.6) — one
`DependencyInfo` per module in first-seen order; `exports` is every
declaration name of the module excluding kind re-export;
`reExportsFrom` is the de-duplicated list of origin modules of the
module's re-export declarations, first appearance first. -/
def analyzeDependencies (idx : DeclIndex) : List DependencyInfo :=
  (dedupFirst (idx.map (·.module))).map (fun m =>
    { module := m
      exports := (((idx.filter (fun t => t.module == m)).filter
        (fun t => decide (t.kind ≠ .reExport))).map (·.name))
      reExportsFrom := dedupFirst (moduleReExportOrigins idx m) })

/-- Modelled from the spec: one file of a scanned source tree (§4.1/§4.2);
`parse` is the file's parse outcome — the declaration list on success,
the recorded failure message otherwise. -/
structure SourceFileScan where
  path : String
  module : String
  parse : Except String (List ExtractedType)
deriving Repr

/-- Modelled from the spec: the extraction loop over a source tree
(§4.2) — each file contributes its declarations in enumeration order; a
file whose parse fails contributes nothing and records one warning, and
the scan continues. -/
def scanTree : List SourceFileScan → List ExtractedType × List String
  | [] => ([], [])
  | f :: rest =>
    let acc := scanTree rest
    match f.parse with
    | .ok decls => (decls ++ acc.1, acc.2)
    | .error e => (acc.1, ("Failed to parse " ++ f.path ++ ": " ++ e) :: acc.2)

/-- The name list of one (module, kind) group of `tailwind_listar_exports`,
translated from `src/tools/ast-tools.ts`: the handler walks the index in
order and pushes each declaration's name onto its module/kind bucket, so
a bucket is the in-order filter of the index. -/
def exportNamesFor (types : List ExtractedType) (m : String) (k : ExtractedKind) : List String :=
  (types.filter (fun t => t.module == m && decide (t.kind = k))).map (·.name)

/-- One rendered name line of `tailwind_listar_exports`. -/
def exportLine (n : String) : String := "- `" ++ n ++ "`"

/-- The omitted-names summary line of `tailwind_listar_exports`. -/
def exportMoreLine (k : Nat) : String := "- ... e mais " ++ toString k

/-- The lines rendered for one (module, kind) group by
`tailwind_listar_exports`, translated from `src/tools/ast-tools.ts`:
`names.slice(0, 10)` rendered one per line, then — only when more than
10 names exist — a single `... e mais (length - 10)` line. -/
def renderExportGroup (names : List String) : List String :=
  ((names.take 10).map exportLine) ++
    (if 10 < names.length then [exportMoreLine (names.length - 10)] else [])

/-- A sample index: twelve exported variables of one module, used to
exercise the truncation path of `tailwind_listar_exports`. -/
def sampleExportIndex : DeclIndex :=
  ["v01", "v02", "v03", "v04", "v05", "v06", "v07", "v08", "v09", "v10",
   "v11", "v12"].map
    (fun n => { kind := .var, name := n, module := "m", file := "m.ts" })

theorem findByName_mem {idx : DeclIndex} {X : ExtractedType} (hX : X ∈ idx) :
    ∃ d, findByName idx X.name = some d := by
  have h : (idx.find? (fun t => t.name == X.name)).isSome := by
    rw [List.find?_isSome]
    exact ⟨X, hX, by simp⟩
  exact Option.isSome_iff_exists.mp h

theorem mem_children_of_references {idx : DeclIndex} {Y : ExtractedType} {n : String}
    (hY : Y ∈ idx) (h : referencesName Y n = true) :
    Y.name ∈ (idx.filter (fun t => referencesName t n)).map (·.name) :=
  List.mem_map_of_mem _ (List.mem_filter.mpr ⟨hY, h⟩)

/-- C1.  Hierarchy symmetry: if declaration `Y`'s extends or implements
list contains `X.name` for declarations `X`, `Y` of the index, then the
hierarchy query for `X.name` succeeds and its `children` list contains
`Y.name`. -/
theorem hierarchy_symmetry (idx : DeclIndex) (X Y : ExtractedType)
    (hX : X ∈ idx) (hY : Y ∈ idx)
    (h : X.name ∈ Y.extendsList ∨ X.name ∈ Y.implementsList) :
    ∃ hr, getTypeHierarchy idx X.name = some hr ∧ Y.name ∈ hr.children := by
  obtain ⟨d, hd⟩ := findByName_mem hX
  have href : referencesName Y X.name = true := by
    unfold referencesName
    rcases h with h | h <;> simp [h]
  refine ⟨{ type := d
            parents := d.extendsList ++ d.implementsList
            children := (idx.filter (fun t => referencesName t X.name)).map (·.name) },
          ?_, ?_⟩
  · unfold getTypeHierarchy
    rw [hd]
  · exact mem_children_of_references hY href

/-- C1 witness: a concrete two-declaration index where `Foo extends Bar`;
the hierarchy of `Bar` lists `Foo` among its children. -/
theorem hierarchy_symmetry_witness :
    let bar : ExtractedType :=
      { kind := .interface, name := "Bar", module := "m", file := "m/b.ts" }
    let foo : ExtractedType :=
      { kind := .interface, name := "Foo", module := "m", file := "m/f.ts",
        extendsList := ["Bar"] }
    ∃ hr, getTypeHierarchy [bar, foo] "Bar" = some hr ∧ "Foo" ∈ hr.children := by
  intro bar foo
  exact hierarchy_symmetry [bar, foo] bar foo (by simp) (by simp) (by left; simp [foo])

/-- C4.  The hierarchy query distinguishes its two outcomes: the handler
reports an error precisely when no declaration with the queried name
exists, and a declaration that exists but has no inheritance
relationships yields a valid (non-error) hierarchy whose `parents` and
`children` are both empty. -/
theorem hierarchy_not_found_vs_empty (idx : DeclIndex) (n : String) :
    (hierarquiaIsError idx n = true ↔ findByName idx n = none) ∧
    (∀ d, findByName idx n = some d →
      ∃ hr, getTypeHierarchy idx n = some hr ∧ hierarquiaIsError idx n = false ∧
        hr.parents = d.extendsList ++ d.implementsList ∧
        (d.extendsList = [] → d.implementsList = [] →
          (∀ t ∈ idx, referencesName t n = false) →
          hr.parents = [] ∧ hr.children = [])) := by
  constructor
  · cases hfind : findByName idx n <;>
      simp [hierarquiaIsError, getTypeHierarchy, hfind]
  · intro d hd
    refine ⟨{ type := d
              parents := d.extendsList ++ d.implementsList
              children := (idx.filter (fun t => referencesName t n)).map (·.name) },
            ?_, ?_, rfl, ?_⟩
    · unfold getTypeHierarchy
      rw [hd]
    · simp [hierarquiaIsError, getTypeHierarchy, hd]
    · intro he hi hall
      refine ⟨by simp [he, hi], ?_⟩
      have : idx.filter (fun t => referencesName t n) = [] :=
        List.filter_eq_nil_iff.mpr (fun t ht => by simp [hall t ht])
      simp [this]

/-- C4 witness: on the one-declaration index `[solo]`, querying the
absent name `Nope` is the error outcome, while querying `Solo` — which
has no inheritance relationships — succeeds with empty parents and
children. -/
theorem hierarchy_not_found_vs_empty_witness :
    (hierarquiaIsError [{ kind := .interface, name := "Solo", module := "m",
                          file := "m/s.ts" }] "Nope" = true) ∧
    (∃ hr, getTypeHierarchy [{ kind := .interface, name := "Solo", module := "m",
                               file := "m/s.ts" }] "Solo" = some hr ∧
      hr.parents = [] ∧ hr.children = []) := by
  constructor
  · exact (hierarchy_not_found_vs_empty _ "Nope").1.mpr (by rfl)
  · obtain ⟨hr, h1, _, _, h4⟩ :=
      (hierarchy_not_found_vs_empty
        [{ kind := .interface, name := "Solo", module := "m", file := "m/s.ts" }] "Solo").2
        { kind := .interface, name := "Solo", module := "m", file := "m/s.ts" } (by rfl)
    obtain ⟨hp, hc⟩ := h4 rfl rfl (by intro t ht; simp at ht; simp [ht, referencesName])
    exact ⟨hr, h1, hp, hc⟩

theorem byKind_sum (idx : DeclIndex) :
    ((allKinds.map (fun k => (idx.filter (fun d => decide (d.kind = k))).length)).sum)
      = idx.length := by
  induction idx with
  | nil => simp
  | cons d t ih =>
    simp only [allKinds, List.map_cons, List.map_nil, List.sum_cons, List.sum_nil,
      List.filter_cons, List.length_cons] at *
    cases hk : d.kind <;> simp [hk] <;> omega

/-- C2.  `statistics().by_kind` has exactly eight entries, one per
declaration kind in the fixed enumeration order, unrepresented kinds
appear with count zero, and the counts sum to `total_declarations`,
which is the size of the whole index. -/
theorem statistics_kind_enumeration (idx : DeclIndex) :
    (getStatistics idx).byKind.length = 8 ∧
    (getStatistics idx).byKind.map Prod.fst = allKinds ∧
    (∀ k : ExtractedKind,
      (k, (idx.filter (fun d => decide (d.kind = k))).length) ∈ (getStatistics idx).byKind) ∧
    (∀ k : ExtractedKind, (∀ d ∈ idx, d.kind ≠ k) → (k, 0) ∈ (getStatistics idx).byKind) ∧
    ((getStatistics idx).byKind.map Prod.snd).sum = (getStatistics idx).totalDeclarations ∧
    (getStatistics idx).totalDeclarations = idx.length := by
  refine ⟨by simp [getStatistics, allKinds], ?_, ?_, ?_, ?_, rfl⟩
  · simp [getStatistics, List.map_map, Function.comp, allKinds]
  · intro k
    have hk : k ∈ allKinds := by cases k <;> simp [allKinds]
    exact List.mem_map_of_mem _ hk
  · intro k hnone
    have hfil : idx.filter (fun d => decide (d.kind = k)) = [] :=
      List.filter_eq_nil_iff.mpr (fun d hd => by simp [hnone d hd])
    have hk : k ∈ allKinds := by cases k <;> simp [allKinds]
    have hmem := List.mem_map_of_mem
      (fun k => (k, (idx.filter (fun d => decide (d.kind = k))).length)) hk
    simp only [hfil, List.length_nil] at hmem
    exact hmem
  · show ((List.map Prod.snd
      (allKinds.map (fun k => (k, (idx.filter (fun d => decide (d.kind = k))).length)))).sum)
      = (getStatistics idx).totalDeclarations
    rw [List.map_map]
    simpa [Function.comp, getStatistics] using byKind_sum idx

/-- C2 witness: on a one-declaration index the eight per-kind counts are
present and sum to the total of 1. -/
theorem statistics_kind_enumeration_witness :
    (getStatistics [{ kind := .function, name := "f", module := "m",
                      file := "m/f.ts" }]).byKind.length = 8 ∧
    ((getStatistics [{ kind := .function, name := "f", module := "m",
                       file := "m/f.ts" }]).byKind.map Prod.snd).sum = 1 := by
  have h := statistics_kind_enumeration
    [{ kind := .function, name := "f", module := "m", file := "m/f.ts" }]
  refine ⟨h.1, ?_⟩
  rw [h.2.2.2.2.1, h.2.2.2.2.2]
  rfl

/-- C6.  Module-filtered listings match the module key case-insensitively
and exactly: `by_module` (and the handler pipeline of
`tailwind_categorias`) returns precisely the declarations whose module
equals the query up to letter case, preserving index order. -/
theorem module_filter_case_insensitive (idx : DeclIndex) (categoria : ExtractedKind)
    (m : String) (t : ExtractedType) :
    (t ∈ getTypesFromModule idx m ↔ t ∈ idx ∧ toLowerStr t.module = toLowerStr m) ∧
    (t ∈ (categoriasHandler idx categoria (some m)).1 ↔
      t ∈ idx ∧ t.kind = categoria ∧ toLowerStr t.module = toLowerStr m) ∧
    List.Sublist (getTypesFromModule idx m) idx := by
  refine ⟨?_, ?_, List.filter_sublist idx⟩
  · simp [getTypesFromModule, moduleFilter, List.mem_filter]
  · simp [categoriasHandler, getTypesByKind, moduleFilter, List.mem_filter, and_assoc]
    intro _
    exact and_comm

/-- C6 witness: a declaration whose module is `utils` is returned for
the differently-cased query `UTILS`. -/
theorem module_filter_case_insensitive_witness :
    ({ kind := .function, name := "f", module := "utils",
       file := "utils/f.ts" } : ExtractedType) ∈
      getTypesFromModule
        [{ kind := .function, name := "f", module := "utils", file := "utils/f.ts" }]
        "UTILS" :=
  (module_filter_case_insensitive
    [{ kind := .function, name := "f", module := "utils", file := "utils/f.ts" }]
    .function "UTILS"
    { kind := .function, name := "f", module := "utils", file := "utils/f.ts" }).1.mpr
    ⟨by simp, by decide⟩

/-- C3 counterexample: on a one-declaration index, a blank fuzzy query
yields an empty result set, yet the `tailwind_buscar_fuzzy` handler
surfaces this zero-result outcome as an error-marked response —
contradicting "never surfaced as an error". -/
theorem fuzzy_zero_results_marked_error :
    fuzzySearch [{ kind := .interface, name := "Config", module := "m",
                   file := "m/c.ts" }] "" 20 = [] ∧
    (buscarFuzzyHandler [{ kind := .interface, name := "Config", module := "m",
                           file := "m/c.ts" }] "" none).isError = true := by
  constructor <;> rfl

/-- C3 (amended).  A blank fuzzy query returns the empty result set at
the engine level, and a listing query with zero results is a valid
non-error outcome (total 0); the fuzzy-search tool handler, however,
surfaces any zero-result fuzzy search — blank query included — as an
error-marked response. -/
theorem fuzzy_blank_and_zero_results (idx : DeclIndex) (q : String) (N : Nat)
    (categoria : ExtractedKind) (modulo : Option String) :
    fuzzySearch idx "" N = [] ∧
    (categoriasHandler idx categoria modulo).2.isError = false ∧
    ((buscarFuzzyHandler idx q none).isError = true ↔ fuzzySearch idx q 20 = []) := by
  refine ⟨rfl, ?_, ?_⟩
  · cases modulo <;> rfl
  · unfold buscarFuzzyHandler fuzzyToolLimit
    by_cases h : (fuzzySearch idx q 20).length = 0
    · simp only [h, if_pos rfl]
      simpa using List.length_eq_zero.mp h
    · simp only [h, if_neg h]
      simp only [show (fuzzySearch idx q 20).length = 0 ↔ fuzzySearch idx q 20 = []
        from List.length_eq_zero] at h
      simpa using h

/-- C3 amended-claim witness: the empty index gives an empty categoria
listing that is not error-marked, and `fuzzySearch` of a blank query
returns nothing. -/
theorem fuzzy_blank_and_zero_results_witness :
    fuzzySearch [] "" 20 = [] ∧
    (categoriasHandler [] .interface none).2.isError = false :=
  ⟨(fuzzy_blank_and_zero_results [] "" 20 .interface none).1,
   (fuzzy_blank_and_zero_results [] "" 20 .interface none).2.1⟩

theorem rankEntries_pos_nodup (idx : DeclIndex) (q : String) :
    ((rankEntries idx q).map (·.pos)).Nodup := by
  unfold rankEntries
  set base := idx.enum.map
    (fun p => ({ pos := p.1, score := fuzzyScore q p.2, decl := p.2 } : ScoredEntry)) with hbase
  have h1 : (base.map (·.pos)).Nodup := by
    have hmm : base.map (·.pos) = idx.enum.map Prod.fst := by
      rw [hbase, List.map_map]; rfl
    rw [hmm, List.enum_map_fst]
    exact List.nodup_range _
  have h2 : ((base.filter (fun e => decide (0 < e.score))).map (·.pos)).Nodup :=
    h1.sublist ((List.filter_sublist base).map _)
  have hperm :=
    (List.perm_insertionSort fuzzyBefore
      (base.filter (fun e => decide (0 < e.score)))).map (·.pos)
  exact hperm.nodup_iff.mpr h2

theorem rankEntries_sorted_tiebreak (idx : DeclIndex) (q : String) :
    (rankEntries idx q).Pairwise
      (fun a b => b.score < a.score ∨ (a.score = b.score ∧ a.pos < b.pos)) := by
  have hs : (rankEntries idx q).Pairwise fuzzyBefore :=
    List.sorted_insertionSort fuzzyBefore _
  have hn : (rankEntries idx q).Pairwise (fun a b => a.pos ≠ b.pos) := by
    have hnd := rankEntries_pos_nodup idx q
    rw [List.Nodup, List.pairwise_map] at hnd
    exact hnd
  refine (hs.and hn).imp ?_
  intro a b h
  obtain ⟨h1, h2⟩ := h
  unfold fuzzyBefore at h1
  omega

/-- C7.  Fuzzy search is bounded by its limit and monotone in it: the
result list for limit `N` has at most `N` entries and is a prefix of the
result list for any larger limit `N'`; the ranking is strictly ordered
with original index position breaking score ties; and the tool boundary
turns an omitted limit into 20. -/
theorem fuzzy_limit_monotone (idx : DeclIndex) (q : String) (N Nb : Nat) (h : N ≤ Nb) :
    (fuzzySearch idx q N).length ≤ N ∧
    (fuzzySearch idx q N) <+: (fuzzySearch idx q Nb) ∧
    (rankEntries idx q).Pairwise
      (fun a b => b.score < a.score ∨ (a.score = b.score ∧ a.pos < b.pos)) ∧
    fuzzyToolLimit none = 20 := by
  refine ⟨?_, ?_, rankEntries_sorted_tiebreak idx q, rfl⟩
  · unfold fuzzySearch
    by_cases hb : isBlank q
    · simp [hb]
    · simp only [if_neg hb, List.length_map]
      exact List.length_take_le _ _
  · unfold fuzzySearch
    by_cases hb : isBlank q
    · simp [hb]
    · simp only [if_neg hb]
      exact (List.take_isPrefix_take.mpr (Or.inl h)).map (fun e : ScoredEntry => e.decl)

/-- C7 witness: on a two-declaration index and the query `con`, the
limit-1 result has at most one entry and is a prefix of the limit-2
result. -/
theorem fuzzy_limit_monotone_witness :
    (fuzzySearch [{ kind := .interface, name := "Config", module := "m", file := "m/c.ts" },
                  { kind := .type, name := "Content", module := "m", file := "m/t.ts" }]
        "con" 1).length ≤ 1 ∧
    (fuzzySearch [{ kind := .interface, name := "Config", module := "m", file := "m/c.ts" },
                  { kind := .type, name := "Content", module := "m", file := "m/t.ts" }]
        "con" 1) <+:
      (fuzzySearch [{ kind := .interface, name := "Config", module := "m", file := "m/c.ts" },
                    { kind := .type, name := "Content", module := "m", file := "m/t.ts" }]
          "con" 2) :=
  ⟨(fuzzy_limit_monotone
      [{ kind := .interface, name := "Config", module := "m", file := "m/c.ts" },
       { kind := .type, name := "Content", module := "m", file := "m/t.ts" }]
      "con" 1 2 (by decide)).1,
   (fuzzy_limit_monotone
      [{ kind := .interface, name := "Config", module := "m", file := "m/c.ts" },
       { kind := .type, name := "Content", module := "m", file := "m/t.ts" }]
      "con" 1 2 (by decide)).2.1⟩

theorem dedupFirst_mem : ∀ (l : List String) (a : String), a ∈ dedupFirst l ↔ a ∈ l := by
  intro l
  induction l with
  | nil => simp [dedupFirst]
  | cons x xs ih =>
    intro a
    by_cases hax : a = x
    · simp [dedupFirst, hax]
    · simp [dedupFirst, hax, List.mem_filter, ih, bne_iff_ne]

theorem dedupFirst_nodup : ∀ l : List String, (dedupFirst l).Nodup := by
  intro l
  induction l with
  | nil => simp [dedupFirst]
  | cons x xs ih =>
    refine List.nodup_cons.mpr ⟨?_, ih.filter _⟩
    intro hx
    have := (List.mem_filter.mp hx).2
    simp at this

theorem dedupFirst_sublist : ∀ l : List String, List.Sublist (dedupFirst l) l := by
  intro l
  induction l with
  | nil => simp [dedupFirst]
  | cons x xs ih =>
    exact List.Sublist.cons₂ x (((List.filter_sublist _).trans ih))

theorem dedupFirst_first_seen : ∀ l : List String,
    (dedupFirst l).Pairwise (fun a b => l.indexOf a < l.indexOf b) := by
  intro l
  induction l with
  | nil => simp [dedupFirst]
  | cons x xs ih =>
    refine List.pairwise_cons.mpr ⟨?_, ?_⟩
    · intro b hb
      have hbne : b ≠ x := by
        have := (List.mem_filter.mp hb).2
        simpa using this
      rw [List.indexOf_cons_self, List.indexOf_cons_ne _ (Ne.symm hbne)]
      exact Nat.succ_pos _
    · have hpw : ((dedupFirst xs).filter (fun y => y != x)).Pairwise
          (fun a b => xs.indexOf a < xs.indexOf b) :=
        ih.sublist (List.filter_sublist _)
      refine hpw.imp_of_mem ?_
      intro a b ha hb hlt
      have hane : a ≠ x := by simpa using (List.mem_filter.mp ha).2
      have hbne : b ≠ x := by simpa using (List.mem_filter.mp hb).2
      rw [List.indexOf_cons_ne _ (Ne.symm hane), List.indexOf_cons_ne _ (Ne.symm hbne)]
      exact Nat.succ_lt_succ hlt

/-- C5 counterexample: a module that declares a variable `utils` and
also re-exports from an origin spelled `utils` puts the same name in
both `exports` and `re_exports_from`, so the no-overlap part of the
dependency-partition claim fails. -/
theorem dependency_partition_counterexample :
    ∃ dep ∈ analyzeDependencies
        [{ kind := .var, name := "utils", module := "m", file := "m/a.ts" },
         { kind := .reExport, name := "*", module := "m", file := "m/a.ts",
           reExportOrigin := some "utils" }],
      ∃ n, n ∈ dep.exports ∧ n ∈ dep.reExportsFrom := by
  refine ⟨{ module := "m", exports := ["utils"], reExportsFrom := ["utils"] },
          ?_, "utils", ?_, ?_⟩ <;> decide

/-- C5 (amended).  Every module of the index gets a dependency record;
`exports` is exactly the set of names of the module's declarations of
kind other than re-export; `re_exports_from` is exactly the set of
origin modules of its re-export declarations, duplicate-free and in
order of first appearance; and `exports` and `re_exports_from` are
disjoint provided no re-export origin string of the module coincides
with the name of a non-re-export declaration of the module (without
that proviso the overlap of `dependency_partition_counterexample` is
possible). -/
theorem dependency_partition (idx : DeclIndex) :
    (∀ t ∈ idx, ∃ dep ∈ analyzeDependencies idx, dep.module = t.module) ∧
    (∀ dep ∈ analyzeDependencies idx,
      (∀ n, n ∈ dep.exports ↔
        ∃ t ∈ idx, t.module = dep.module ∧ t.kind ≠ .reExport ∧ t.name = n) ∧
      (∀ o, o ∈ dep.reExportsFrom ↔
        ∃ t ∈ idx, t.module = dep.module ∧ t.kind = .reExport ∧ t.reExportOrigin = some o) ∧
      dep.reExportsFrom.Nodup ∧
      dep.reExportsFrom.Pairwise (fun a b =>
        (moduleReExportOrigins idx dep.module).indexOf a
          < (moduleReExportOrigins idx dep.module).indexOf b) ∧
      ((∀ t ∈ idx, t.module = dep.module → t.kind ≠ .reExport →
          ∀ s ∈ idx, s.module = dep.module → s.kind = .reExport →
            s.reExportOrigin ≠ some t.name) →
        ∀ n ∈ dep.exports, n ∉ dep.reExportsFrom)) := by
  constructor
  · intro t ht
    refine ⟨_, List.mem_map_of_mem _
      ((dedupFirst_mem _ _).mpr (List.mem_map_of_mem (·.module) ht)), rfl⟩
  · intro dep hdep
    obtain ⟨m, hm, rfl⟩ := List.mem_map.mp hdep
    have hexp : ∀ n, n ∈ (((idx.filter (fun t => t.module == m)).filter
        (fun t => decide (t.kind ≠ .reExport))).map (·.name)) ↔
        ∃ t ∈ idx, t.module = m ∧ t.kind ≠ .reExport ∧ t.name = n := by
      intro n
      simp only [List.mem_map, List.mem_filter, decide_eq_true_eq, beq_iff_eq]
      constructor
      · rintro ⟨t, ⟨⟨htmem, htm⟩, htk⟩, htn⟩
        exact ⟨t, htmem, htm, htk, htn⟩
      · rintro ⟨t, htmem, htm, htk, htn⟩
        exact ⟨t, ⟨⟨htmem, htm⟩, htk⟩, htn⟩
    have horig : ∀ o, o ∈ dedupFirst (moduleReExportOrigins idx m) ↔
        ∃ t ∈ idx, t.module = m ∧ t.kind = .reExport ∧ t.reExportOrigin = some o := by
      intro o
      rw [dedupFirst_mem]
      unfold moduleReExportOrigins
      simp only [List.mem_filterMap, List.mem_filter, decide_eq_true_eq, beq_iff_eq]
      constructor
      · rintro ⟨t, ⟨⟨htmem, htm⟩, htk⟩, hto⟩
        exact ⟨t, htmem, htm, htk, hto⟩
      · rintro ⟨t, htmem, htm, htk, hto⟩
        exact ⟨t, ⟨⟨htmem, htm⟩, htk⟩, hto⟩
    refine ⟨hexp, horig, dedupFirst_nodup _, dedupFirst_first_seen _, ?_⟩
    intro hsep n hn hmem
    obtain ⟨t, htmem, htm, htk, htn⟩ := (hexp n).mp hn
    obtain ⟨s, hsmem, hsm, hsk, hso⟩ := (horig n).mp hmem
    exact hsep t htmem htm htk s hsmem hsm hsk (by rw [hso, htn])

/-- C5 witness (for the amended claim): on the spec's §8 scenario — a
module `index` with a function `boot` and a wildcard re-export from
`./utils` — the record for `index` exports `boot`, lists `./utils`
among its re-export origins, and `boot` is not among them. -/
theorem dependency_partition_witness :
    ∃ dep ∈ analyzeDependencies
        [{ kind := .function, name := "boot", module := "index", file := "index.ts" },
         { kind := .reExport, name := "*", module := "index", file := "index.ts",
           reExportOrigin := some "./utils" }],
      "boot" ∈ dep.exports ∧ "./utils" ∈ dep.reExportsFrom ∧
        "boot" ∉ dep.reExportsFrom := by
  have h := (dependency_partition
    [{ kind := .function, name := "boot", module := "index", file := "index.ts" },
     { kind := .reExport, name := "*", module := "index", file := "index.ts",
       reExportOrigin := some "./utils" }]).2
    { module := "index", exports := ["boot"], reExportsFrom := ["./utils"] }
    (by decide)
  refine ⟨{ module := "index", exports := ["boot"], reExportsFrom := ["./utils"] },
          by decide, ?_, ?_, ?_⟩
  · exact (h.1 "boot").mpr
      ⟨{ kind := .function, name := "boot", module := "index", file := "index.ts" },
       by decide, rfl, by decide, rfl⟩
  · exact (h.2.1 "./utils").mpr
      ⟨{ kind := .reExport, name := "*", module := "index", file := "index.ts",
         reExportOrigin := some "./utils" },
       by decide, rfl, rfl, rfl⟩
  · exact h.2.2.2.2 (by decide) "boot" (by decide)

theorem scanTree_append (a b : List SourceFileScan) :
    scanTree (a ++ b)
      = ((scanTree a).1 ++ (scanTree b).1, (scanTree a).2 ++ (scanTree b).2) := by
  induction a with
  | nil => simp [scanTree]
  | cons f rest ih =>
    cases hf : f.parse <;> simp [scanTree, hf, ih]

theorem scanTree_ok_mem (files : List SourceFileScan) (f : SourceFileScan)
    (hmem : f ∈ files) (ds : List ExtractedType) (hok : f.parse = .ok ds) :
    List.Sublist ds (scanTree files).1 := by
  induction files with
  | nil => simp at hmem
  | cons g rest ih =>
    rcases List.mem_cons.mp hmem with h | h
    · subst h
      simp only [scanTree, hok]
      exact List.sublist_append_left ds (scanTree rest).1
    · cases hg : g.parse with
      | ok decls =>
        simp only [scanTree, hg]
        exact (ih h).trans (List.sublist_append_right decls (scanTree rest).1)
      | error e =>
        simp only [scanTree, hg]
        exact ih h

/-- C8.  Parse-failure resilience: scanning a tree with one malformed
file between well-formed ones yields exactly the declarations of the
well-formed files (the malformed file contributes none), records exactly
one extra warning for it, and every well-formed file's declarations
still appear in the result. -/
theorem parse_failure_resilience (pre post : List SourceFileScan)
    (bad : SourceFileScan) (e : String) (hbad : bad.parse = .error e) :
    (scanTree (pre ++ bad :: post)).1 = (scanTree pre).1 ++ (scanTree post).1 ∧
    (scanTree (pre ++ bad :: post)).2.length
      = (scanTree pre).2.length + 1 + (scanTree post).2.length ∧
    (∀ f ∈ pre ++ post, ∀ ds, f.parse = .ok ds →
      List.Sublist ds (scanTree (pre ++ bad :: post)).1) := by
  have hstep : scanTree (bad :: post)
      = ((scanTree post).1,
         ("Failed to parse " ++ bad.path ++ ": " ++ e) :: (scanTree post).2) := by
    simp [scanTree, hbad]
  refine ⟨?_, ?_, ?_⟩
  · rw [scanTree_append, hstep]
  · rw [scanTree_append, hstep]
    simp only [List.length_append, List.length_cons]
    omega
  · intro f hf ds hok
    rcases List.mem_append.mp hf with h | h
    · exact scanTree_ok_mem _ f (by simp [h]) ds hok
    · exact scanTree_ok_mem _ f (by simp [h]) ds hok

/-- C8 witness: a malformed file between two one-declaration files
yields exactly the two good declarations and one recorded warning. -/
theorem parse_failure_resilience_witness :
    (scanTree
      [{ path := "a.ts", module := "a",
         parse := .ok [{ kind := .interface, name := "A", module := "a", file := "a.ts" }] },
       { path := "b.ts", module := "b", parse := .error "unexpected token" },
       { path := "c.ts", module := "c",
         parse := .ok [{ kind := .enum, name := "C", module := "c", file := "c.ts" }] }]).1
      = [{ kind := .interface, name := "A", module := "a", file := "a.ts" },
         { kind := .enum, name := "C", module := "c", file := "c.ts" }] ∧
    (scanTree
      [{ path := "a.ts", module := "a",
         parse := .ok [{ kind := .interface, name := "A", module := "a", file := "a.ts" }] },
       { path := "b.ts", module := "b", parse := .error "unexpected token" },
       { path := "c.ts", module := "c",
         parse := .ok [{ kind := .enum, name := "C", module := "c", file := "c.ts" }] }]).2.length
      = 1 := by
  have h := parse_failure_resilience
    [{ path := "a.ts", module := "a",
       parse := .ok [{ kind := .interface, name := "A", module := "a", file := "a.ts" }] }]
    [{ path := "c.ts", module := "c",
       parse := .ok [{ kind := .enum, name := "C", module := "c", file := "c.ts" }] }]
    { path := "b.ts", module := "b", parse := .error "unexpected token" }
    "unexpected token" rfl
  exact ⟨h.1.trans rfl, h.2.1.trans rfl⟩

/-- C9.  Determinism of extraction: the scan result is a pure function
of the enumerated source tree — two runs over the same tree give the
same declaration list in the same order (and the same warnings), and
that list is exactly the in-order concatenation of the per-file
declaration lists. -/
theorem extraction_deterministic (files files' : List SourceFileScan)
    (h : files = files') :
    (scanTree files).1 = (scanTree files').1 ∧
    (scanTree files).2 = (scanTree files').2 ∧
    (scanTree files).1 = (files.map (fun f => match f.parse with
      | .ok ds => ds
      | .error _ => [])).flatten := by
  subst h
  refine ⟨rfl, rfl, ?_⟩
  induction files with
  | nil => rfl
  | cons f rest ih =>
    simp only [scanTree, List.map_cons, List.flatten]
    cases f.parse <;> simp [ih]

/-- C9 witness: two scans of the same concrete one-file tree agree. -/
theorem extraction_deterministic_witness :
    (scanTree [{ path := "a.ts", module := "a",
                 parse := .ok [{ kind := .cls, name := "A", module := "a",
                                 file := "a.ts" }] }]).1
      = (scanTree [{ path := "a.ts", module := "a",
                     parse := .ok [{ kind := .cls, name := "A", module := "a",
                                     file := "a.ts" }] }]).1 :=
  (extraction_deterministic _ _ rfl).1

/-- C10.  Output bound of `tailwind_listar_exports`: each module/kind
group renders at most the first 10 of its names — exactly all of them
when the group has at most 10, and exactly the first 10 in index order
followed by one summary line counting the `length − 10` omitted names
otherwise. -/
theorem listar_exports_truncation (types : List ExtractedType) (m : String)
    (k : ExtractedKind) :
    ((exportNamesFor types m k).take 10).length ≤ 10 ∧
    List.Sublist (exportNamesFor types m k) (types.map (·.name)) ∧
    ((exportNamesFor types m k).length ≤ 10 →
      renderExportGroup (exportNamesFor types m k)
        = (exportNamesFor types m k).map exportLine) ∧
    (10 < (exportNamesFor types m k).length →
      renderExportGroup (exportNamesFor types m k)
        = ((exportNamesFor types m k).take 10).map exportLine
            ++ [exportMoreLine ((exportNamesFor types m k).length - 10)] ∧
      ((exportNamesFor types m k).take 10).length = 10) := by
  refine ⟨List.length_take_le _ _, ?_, ?_, ?_⟩
  · exact (List.filter_sublist types).map (·.name)
  · intro hle
    unfold renderExportGroup
    rw [if_neg (by omega), List.take_of_length_le hle, List.append_nil]
  · intro hgt
    refine ⟨?_, ?_⟩
    · unfold renderExportGroup
      rw [if_pos hgt]
    · rw [List.length_take]
      omega

/-- C10 witness: with twelve names in the `m` / variable group, the
rendering shows the first ten and a summary line for the two omitted. -/
theorem listar_exports_truncation_witness :
    renderExportGroup (exportNamesFor sampleExportIndex "m" .var)
      = ((exportNamesFor sampleExportIndex "m" .var).take 10).map exportLine
          ++ [exportMoreLine 2] ∧
    ((exportNamesFor sampleExportIndex "m" .var).take 10).length = 10 := by
  have h := (listar_exports_truncation sampleExportIndex "m" .var).2.2.2 (by decide)
  exact ⟨h.1.trans (by rfl), h.2⟩
